import Mathlib

/-!
# rendertron-middleware-gofiber: the middleware built by `New`

A shallow embedding of `src/rendertron.go` and `src/data.go`.

* Go strings are Lean `String`s; where the code works on bytes (`url.QueryEscape`)
  the bytes are those of the UTF-8 encoding.
* `New` returns a closure: the captured variables are the record `Handler`, the body of
  the `func(ctx *fiber.Ctx) error` literal is `Handler.Serve`.
* What the closure takes from outside the repository is explicit: the request facts and the
  response under construction (`Ctx`), the next handler of the pipeline and the network
  (`World`), and the regular expression compiler (`Compiler`).
* `log.Fatal` and Go panics are outcomes of their own (`Setup.fatal`, `Setup.panic`,
  `Result.panic`), never confused with a returned `error`.
-/

namespace Rendertron

/-! ## Strings -/

/-- Go `strings.HasSuffix`. -/
def strings.HasSuffix (s suffix : String) : Bool :=
  suffix.data.isSuffixOf s.data

/-- Go `strings.Join`. -/
def strings.Join : List String → String → String
  | [], _ => ""
  | [a], _ => a
  | a :: b :: rest, sep => a ++ sep ++ strings.Join (b :: rest) sep

/-- The bytes of a Go string: the UTF-8 encoding, each byte as a number below 256. -/
def goBytes (s : String) : List Nat :=
  (s.data.flatMap String.utf8EncodeChar).map UInt8.toNat

/-! ## net/url.QueryEscape

`rendertron.go` line 188 calls `url.QueryEscape` of the Go standard library. It is
`escape(s, encodeQueryComponent)`; the definitions below follow `net/url/url.go`
specialised to that mode. -/

/-- The table `upperhex = "0123456789ABCDEF"` of `net/url`, indexed by a nibble. -/
def upperhex (n : Nat) : Char :=
  "0123456789ABCDEF".data.getD n '0'

/-- `shouldEscape(c, encodeQueryComponent)` of `net/url`: unreserved characters
(letters, digits, `-`, `_`, `.`, `~`) are kept, the reserved characters and everything
else are escaped. -/
def shouldEscape (c : Nat) : Bool :=
  if (97 ≤ c ∧ c ≤ 122) ∨ (65 ≤ c ∧ c ≤ 90) ∨ (48 ≤ c ∧ c ≤ 57) then false
  else if c = 45 ∨ c = 95 ∨ c = 46 ∨ c = 126 then false
  else true

/-- One step of the second loop of `escape`: a space becomes `+`, a byte that should be
escaped becomes `%` and two upper-case hexadecimal digits (`c>>4`, `c&15`), any other
byte is copied. -/
def escapeByte (c : Nat) : List Char :=
  if c = 32 then ['+']
  else if shouldEscape c then ['%', upperhex (c / 16), upperhex (c % 16)]
  else [Char.ofNat c]

/-- The function `escape(s, encodeQueryComponent)` on the bytes of `s`. (The first loop
of the Go function only counts; when it counts nothing the string is returned as is,
which is what the second loop produces too.) -/
def escapeBytes (bs : List Nat) : List Char :=
  bs.flatMap escapeByte

/-- Go `url.QueryEscape`. -/
def url.QueryEscape (s : String) : String :=
  String.mk (escapeBytes (goBytes s))

/-! ## regexp

The handler compiles its two patterns with `regexp.MustCompile` of the Go standard library
and asks `MatchString`. The fragment of the RE2 syntax modelled here: literals, escaped
punctuation, `.`, `^`, `$`, `|`, groups `( )` and `(?: )`, the flag groups of `i`, `s`
and `U`, and the repetitions `*`, `+`, `?` with their non-greedy forms. Patterns that use
anything else (character classes, counted repetition, the escapes made of letters and
digits, named groups, the flag `m`) are outside the fragment and are not compiled. -/

/-- The syntax tree of a pattern. -/
inductive Regexp where
  | noMatch
  | emptyMatch
  | literal (c : Char) (foldCase : Bool)
  | anyChar (dotNL : Bool)
  | beginText
  | endText
  | concat (a b : Regexp)
  | alternate (a b : Regexp)
  | star (a : Regexp)
  | plus (a : Regexp)
  | quest (a : Regexp)
  deriving DecidableEq, Repr

/-- Case folding of a literal under `(?i)`: the orbits of the ASCII letters under Unicode
simple folding (`k` with `K` and the Kelvin sign, `s` with `S` and the long s); the orbits
of other characters are not in the model, they match themselves only. -/
def foldKey (c : Char) : Char :=
  let l := c.toLower
  if l = Char.ofNat 0x212A then 'k' else if l = Char.ofNat 0x17F then 's' else l

/-- The positions reachable by repeating `f` any number of times from `s`. A position is
the text that remains; a repetition that consumes nothing reaches nothing new, so only
steps to a shorter remainder are followed, at most `fuel` of them. -/
def starRests (f : List Char → List (List Char)) : Nat → List Char → List (List Char)
  | 0, s => [s]
  | fuel + 1, s =>
    s :: ((f s).filter (fun t => t.length < s.length)).flatMap (starRests f fuel)

/-- The function `re.rests n s` lists the remainders `t` such that `re` matches the part
of `s` before `t`, where `s` is itself a remainder of a text of `n` characters. -/
def Regexp.rests (n : Nat) : Regexp → List Char → List (List Char)
  | .noMatch, _ => []
  | .emptyMatch, s => [s]
  | .literal c foldCase, s =>
    match s with
    | [] => []
    | x :: t => if (if foldCase then foldKey x == foldKey c else x == c) then [t] else []
  | .anyChar dotNL, s =>
    match s with
    | [] => []
    | x :: t => if dotNL || x != '\n' then [t] else []
  | .beginText, s => if s.length == n then [s] else []
  | .endText, s => if s.isEmpty then [s] else []
  | .concat a b, s => (a.rests n s).flatMap (b.rests n)
  | .alternate a b, s => a.rests n s ++ b.rests n s
  | .star a, s => starRests (a.rests n) s.length s
  | .plus a, s => (a.rests n s).flatMap (fun t => starRests (a.rests n) t.length t)
  | .quest a, s => s :: a.rests n s

/-- Go `(*Regexp).MatchString`: the pattern matches somewhere in the text. -/
def Regexp.MatchString (re : Regexp) (s : String) : Bool :=
  s.data.tails.any (fun t => !(re.rests s.data.length t).isEmpty)

/-- The flags of the parser that change what a pattern matches. -/
structure Flags where
  foldCase : Bool
  dotNL : Bool
  deriving DecidableEq, Repr

/-- One group being parsed: `alts` are the alternatives closed by `|`, `seq` the pieces
of the current alternative, both last first. -/
structure Frame where
  alts : List Regexp
  seq : List Regexp
  deriving DecidableEq, Repr

/-- Where the parser is inside a token of more than one character. -/
inductive Mode where
  | normal
  | escape
  | paren
  | perl (neg sawFlag : Bool) (fl : Flags)
  deriving DecidableEq, Repr

/-- Whether the previous token was a repetition operator (`op`), and whether its
non-greedy marker has been read too (`opLazy`). -/
inductive Rep where
  | none
  | op
  | opLazy
  deriving DecidableEq, Repr

/-- The state of the parser: the flags in force, the group being parsed, the enclosing
groups with the flags to restore when each closes. -/
structure Parser where
  flags : Flags
  cur : Frame
  stack : List (Frame × Flags)
  mode : Mode
  rep : Rep
  deriving DecidableEq, Repr

/-- The concatenation of pieces given in the order of the pattern. -/
def concatOf (rs : List Regexp) : Regexp :=
  rs.foldr Regexp.concat Regexp.emptyMatch

/-- The alternation of alternatives given in the order of the pattern. -/
def alternateOf (rs : List Regexp) : Regexp :=
  rs.foldr Regexp.alternate Regexp.noMatch

/-- The tree of a finished group. -/
def Frame.close (f : Frame) : Regexp :=
  alternateOf (concatOf f.seq.reverse :: f.alts).reverse

/-- Adds a piece to the current alternative. -/
def Parser.push (p : Parser) (r : Regexp) : Parser :=
  { p with cur := { p.cur with seq := r :: p.cur.seq }, mode := .normal, rep := .none }

/-- Opens a group: the current group and flags go on the stack. -/
def Parser.openGroup (p : Parser) (fl : Flags) : Parser :=
  { p with stack := (p.cur, p.flags) :: p.stack, cur := { alts := [], seq := [] },
           flags := fl, mode := .normal, rep := .none }

/-- The repetition operator `c` applied to `r`. -/
def repeatOp (c : Char) (r : Regexp) : Regexp :=
  if c = '*' then .star r else if c = '+' then .plus r else .quest r

/-- One character read outside of a multi-character token. -/
def Parser.normalStep (p : Parser) (c : Char) : Option Parser :=
  if c = '\\' then some { p with mode := .escape, rep := .none }
  else if c = '(' then some { p with mode := .paren, rep := .none }
  else if c = ')' then
    match p.stack with
    | [] => none
    | (outer, fl) :: rest =>
      some { flags := fl, cur := { outer with seq := p.cur.close :: outer.seq },
             stack := rest, mode := .normal, rep := .none }
  else if c = '|' then
    some { p with cur := { alts := concatOf p.cur.seq.reverse :: p.cur.alts, seq := [] },
                  rep := .none }
  else if c = '*' ∨ c = '+' ∨ c = '?' then
    match p.rep with
    | .op => if c = '?' then some { p with rep := .opLazy } else none
    | .opLazy => none
    | .none =>
      match p.cur.seq with
      | [] => none
      | r :: rs => some { p with cur := { p.cur with seq := repeatOp c r :: rs }, rep := .op }
  else if c = '[' ∨ c = '{' then none
  else if c = '.' then some (p.push (.anyChar p.flags.dotNL))
  else if c = '^' then some (p.push .beginText)
  else if c = '$' then some (p.push .endText)
  else some (p.push (.literal c p.flags.foldCase))

/-- One character read. After a backslash only ASCII punctuation is in the fragment (it
stands for itself). After `(`, a `?` starts a flag group, anything else is the first
character of a new group. Inside `(?`, flags are read up to `)` (the flags hold for the
rest of the enclosing group) or `:` (they hold for the group that starts). -/
def Parser.step (p : Parser) (c : Char) : Option Parser :=
  match p.mode with
  | .normal => p.normalStep c
  | .escape =>
    if c.toNat < 128 ∧ ¬ c.isAlphanum then some (p.push (.literal c p.flags.foldCase))
    else none
  | .paren =>
    if c = '?' then some { p with mode := .perl false false p.flags }
    else (p.openGroup p.flags).normalStep c
  | .perl neg sawFlag fl =>
    if c = 'i' then some { p with mode := .perl neg true { fl with foldCase := !neg } }
    else if c = 's' then some { p with mode := .perl neg true { fl with dotNL := !neg } }
    else if c = 'U' then some { p with mode := .perl neg true fl }
    else if c = '-' then
      if neg then none else some { p with mode := .perl true false fl }
    else if c = ':' ∨ c = ')' then
      if neg ∧ ¬ sawFlag then none
      else if c = ':' then some (p.openGroup fl)
      else some { p with flags := fl, mode := .normal }
    else none

/-- The characters of a pattern read one after the other. -/
def Parser.steps : List Char → Parser → Option Parser
  | [], p => some p
  | c :: cs, p =>
    match p.step c with
    | none => none
    | some q => Parser.steps cs q

/-- The end of the pattern: every group must be closed and no token left unfinished. -/
def Parser.finish (p : Parser) : Option Regexp :=
  match p.mode, p.stack with
  | .normal, [] => some p.cur.close
  | _, _ => none

/-- The parser before the first character. -/
def Parser.init : Parser :=
  { flags := { foldCase := false, dotNL := false }, cur := { alts := [], seq := [] },
    stack := [], mode := .normal, rep := .none }

/-- Go `regexp.Compile` on the fragment: `none` is a compile error. -/
def regexp.Compile (pattern : String) : Option Regexp :=
  match Parser.steps pattern.data Parser.init with
  | none => none
  | some p => p.finish

/-- A compiled pattern, seen through `MatchString`. -/
abbrev Matcher := String → Bool

/-- Go `regexp.Compile` seen from the handler: `none` is a compile error, on which
`regexp.MustCompile` panics. -/
abbrev Compiler := String → Option Matcher

/-- The Go regular expression library as the handler uses it. -/
def goRegexp : Compiler :=
  fun pattern => (regexp.Compile pattern).map Regexp.MatchString

/-! ## data.go -/

/-- A default set of user agent patterns for bots/crawlers that do not perform well with
pages that require JavaScript. -/
def BotUserAgents : List String := [
  "Baiduspider",
  "bingbot",
  "Embedly",
  "facebookexternalhit",
  "LinkedInBot",
  "outbrain",
  "pinterest",
  "quora link preview",
  "rogerbot",
  "showyoubot",
  "Slackbot",
  "TelegramBot",
  "Twitterbot",
  "vkShare",
  "W3C_Validator",
  "WhatsApp"]

/-- A default set of file extensions for static assets that do not need to be proxied. -/
def StaticFileExtensions : List String := [
  "ai",
  "avi",
  "css",
  "dat",
  "dmg",
  "doc",
  "doc",
  "exe",
  "flv",
  "gif",
  "ico",
  "iso",
  "jpeg",
  "jpg",
  "js",
  "less",
  "m4a",
  "m4v",
  "mov",
  "mp3",
  "mp4",
  "mpeg",
  "mpg",
  "pdf",
  "png",
  "ppt",
  "psd",
  "rar",
  "rss",
  "svg",
  "swf",
  "tif",
  "torrent",
  "ttf",
  "txt",
  "wav",
  "wmv",
  "woff",
  "xls",
  "xml",
  "zip"]

/-! ## rendertron.go -/

/-- Go `contains` of rendertron.go: linear search with `==`. -/
def contains (arr : List String) (target : String) : Bool :=
  match arr with
  | [] => false
  | item :: rest => if item == target then true else contains rest target

/-- The struct `Options`. -/
structure Options where
  ProxyUrl : String := ""
  UserAgentPattern : String := ""
  ExtraBotUserAgents : List String := []
  ExcludeUrlPattern : String := ""
  ExtraExcludeUrls : List String := []
  InjectShadyDom : Bool := false
  Timeout : Int := 0
  AllowedForwardedHosts : List String := []
  ForwardedHostHeader : String := ""
  deriving DecidableEq, Repr

def defaultForwardedHostHeader : String := "X-Forwarded-Host"

def defaultTimeout : Int := 11000

/-- A Go `error` value. -/
abbrev GoError := String

/-- The part of the fiber response that the handler writes: status code, the
`Content-Type` header and the body bytes. -/
structure Response where
  status : Nat
  contentType : String
  body : List Nat
  deriving DecidableEq, Repr

/-- What the handler reads from `*fiber.Ctx`, and the response it writes to.
`get` is `ctx.Get` (the value of a request header, `""` when absent). -/
structure Ctx where
  userAgent : String
  path : String
  protocol : String
  host : String
  originalURL : String
  get : String → String
  response : Response

/-- An upstream HTTP response as `client.Get` returns it. `readAll` is what
`ioutil.ReadAll(response.Body)` returns: the bytes read and the error, if any. -/
structure UpstreamResponse where
  statusCode : Nat
  header : List (String × String)
  readAll : List Nat × Option GoError
  deriving DecidableEq, Repr

/-- The `http.Client` of the closure; `Timeout` is a `time.Duration` (int64 nanoseconds). -/
structure Client where
  Timeout : Int
  deriving DecidableEq, Repr

/-- What lies outside the handler: `next` is `ctx.Next()`, the rest of the pipeline,
which returns an error or nil and may write to the response; `httpGet` is
`client.Get`. -/
structure World where
  next : Response → Option GoError × Response
  httpGet : Client → String → Except GoError UpstreamResponse

/-- How one run of the handler ends: `err` is the `error` the handler returns (`none` for
nil), `response` the response after the handler, `fetched` the URLs given to `client.Get`,
in order. -/
structure Outcome where
  err : Option GoError
  response : Response
  fetched : List String
  deriving DecidableEq, Repr

/-- A run of the handler returns or panics. -/
inductive Result where
  | returned (o : Outcome)
  | panic (msg : String)
  deriving DecidableEq, Repr

/-- The variables captured by the closure that `New` returns. -/
structure Handler where
  proxyUrl : String
  userAgentPattern : String
  excludeUrlPattern : String
  injectShadyDom : Bool
  allowedForwardedHosts : List String
  forwardedHostHeader : String
  client : Client
  deriving DecidableEq, Repr

/-- How `New` ends: it returns the closure, or `log.Fatal` ends the process, or it
panics. -/
inductive Setup where
  | handler (h : Handler)
  | fatal (msg : String)
  | panic (msg : String)
  deriving DecidableEq, Repr

/-- Conversion to int64 (two's complement wrap-around). -/
def wrapInt64 (x : Int) : Int :=
  (x + 2 ^ 63) % 2 ^ 64 - 2 ^ 63

/-- Lines 114 to 161 of `New`: the variables that the returned closure captures. -/
def New.captured (config : Options) : Handler :=
  let proxyUrl := config.ProxyUrl
  let proxyUrl := if !strings.HasSuffix proxyUrl "/" then proxyUrl ++ "/" else proxyUrl
  let userAgentPattern := config.UserAgentPattern
  let userAgentPattern :=
    if userAgentPattern == "" then
      strings.Join (BotUserAgents ++ config.ExtraBotUserAgents) "|"
    else userAgentPattern
  let excludeUrlPattern := config.ExcludeUrlPattern
  let excludeUrlPattern :=
    if excludeUrlPattern == "" then
      "\\.(" ++ strings.Join (StaticFileExtensions ++ config.ExtraExcludeUrls) "|" ++ ")$"
    else excludeUrlPattern
  let injectShadyDom := config.InjectShadyDom
  let timeout := config.Timeout
  let timeout := if timeout == 0 then defaultTimeout else timeout
  let allowedForwardedHosts := config.AllowedForwardedHosts
  let forwardedHostHeader :=
    if config.AllowedForwardedHosts.length == 0 then ""
    else if config.ForwardedHostHeader == "" then defaultForwardedHostHeader
    else config.ForwardedHostHeader
  let client : Client := { Timeout := wrapInt64 (wrapInt64 timeout * 1000000) }
  { proxyUrl := proxyUrl
    userAgentPattern := userAgentPattern
    excludeUrlPattern := excludeUrlPattern
    injectShadyDom := injectShadyDom
    allowedForwardedHosts := allowedForwardedHosts
    forwardedHostHeader := forwardedHostHeader
    client := client }

/-- Go `New`: `options[0]` panics when no `Options` value is passed, `log.Fatal` ends the
process when `ProxyUrl` is empty, otherwise the closure is returned. -/
def New (options : List Options) : Setup :=
  match options with
  | [] => .panic "runtime error: index out of range [0] with length 0"
  | config :: _ =>
    if config.ProxyUrl == "" then
      .fatal "Must set options.proxyUrl."
    else
      .handler (New.captured config)

/-- The value of `ctx.Next()`: the rest of the pipeline runs on the response as it is; the
handler has fetched nothing. -/
def passNext (ctx : Ctx) (w : World) : Result :=
  .returned { err := (w.next ctx.response).1, response := (w.next ctx.response).2, fetched := [] }

/-- The message of the panic of `regexp.MustCompile`. -/
def mustCompilePanic (pattern : String) : String :=
  "regexp: Compile(" ++ pattern ++ "): error parsing regexp"

/-- Lines 173 to 185: the host that goes into the canonical URL. -/
def Handler.resolveHost (h : Handler) (ctx : Ctx) : String :=
  let forwardedHost := if h.forwardedHostHeader != "" then ctx.get h.forwardedHostHeader else ""
  if forwardedHost != "" && contains h.allowedForwardedHosts forwardedHost then forwardedHost
  else ctx.host

/-- Line 187: `incomingUrl`. -/
def Handler.incomingUrl (h : Handler) (ctx : Ctx) : String :=
  ctx.protocol ++ "://" ++ h.resolveHost ctx ++ ctx.originalURL

/-- Lines 188 to 192: `renderUrl`. -/
def Handler.renderUrl (h : Handler) (ctx : Ctx) : String :=
  let renderUrl := h.proxyUrl ++ url.QueryEscape (h.incomingUrl ctx)
  if h.injectShadyDom then renderUrl ++ "?wc-inject-shadydom=true" else renderUrl

/-- Lines 194 to 208: the fetch and the response. -/
def Handler.proxy (h : Handler) (ctx : Ctx) (w : World) : Result :=
  let renderUrl := h.renderUrl ctx
  match w.httpGet h.client renderUrl with
  | .error err => .returned { err := some err, response := ctx.response, fetched := [renderUrl] }
  | .ok response =>
    match response.readAll with
    | (_, some err) =>
      .returned { err := some err, response := ctx.response, fetched := [renderUrl] }
    | (body, none) =>
      .returned {
        err := none
        response := { status := 200, contentType := "text/html", body := body }
        fetched := [renderUrl] }

/-- The body of the closure that `New` returns (lines 163 to 209). The condition of the
`if` is evaluated left to right with short-circuit `||`; each `regexp.MustCompile` runs
only when the operands before it are false, and panics on a pattern that does not
compile. -/
def Handler.Serve (compile : Compiler) (h : Handler) (ctx : Ctx) (w : World) : Result :=
  let userAgent := ctx.userAgent
  if userAgent == "" then passNext ctx w
  else
    match compile ("(?i)" ++ h.userAgentPattern) with
    | none => .panic (mustCompilePanic ("(?i)" ++ h.userAgentPattern))
    | some ua =>
      if !ua userAgent then passNext ctx w
      else
        match compile ("(?i)" ++ h.excludeUrlPattern) with
        | none => .panic (mustCompilePanic ("(?i)" ++ h.excludeUrlPattern))
        | some ex =>
          if ex ctx.path then passNext ctx w
          else h.proxy ctx w

/-! ## The claims in the words of the specification -/

/-- Eligibility as the specification words it (section 4.1): the user agent is non-empty
and matches the crawler pattern, and the path does not match the exclusion pattern. -/
def Handler.eligible (compile : Compiler) (h : Handler) (ctx : Ctx) : Bool :=
  ctx.userAgent != "" &&
  (match compile ("(?i)" ++ h.userAgentPattern) with
   | some ua => ua ctx.userAgent
   | none => false) &&
  (match compile ("(?i)" ++ h.excludeUrlPattern) with
   | some ex => !ex ctx.path
   | none => false)

/-- The value `v` of C1: the request header named by `ForwardedHostHeader`,
`X-Forwarded-Host` when that field is empty. -/
def forwardedValue (config : Options) (ctx : Ctx) : String :=
  ctx.get (if config.ForwardedHostHeader = "" then "X-Forwarded-Host"
           else config.ForwardedHostHeader)

/-- The host of C1: `v` when the allow-list is non-empty, `v` is non-empty and `v` is an
element of the allow-list, the declared Host in every other case. -/
def claimedHost (config : Options) (ctx : Ctx) : String :=
  if config.AllowedForwardedHosts ≠ [] ∧ forwardedValue config ctx ≠ "" ∧
      forwardedValue config ctx ∈ config.AllowedForwardedHosts then
    forwardedValue config ctx
  else ctx.host

/-- The base of C2: `ProxyUrl` when it ends with `/`, `ProxyUrl` and one `/` otherwise. -/
def claimedBase (config : Options) : String :=
  if strings.HasSuffix config.ProxyUrl "/" then config.ProxyUrl else config.ProxyUrl ++ "/"

/-- The flag of C2. -/
def claimedFlag (config : Options) : String :=
  if config.InjectShadyDom then "?wc-inject-shadydom=true" else ""

/-- An unreserved character of C10: an ASCII letter, a digit, or one of `-`, `_`, `.`,
`~`. -/
def isUnreserved (c : Char) : Bool :=
  (97 ≤ c.toNat && c.toNat ≤ 122) || (65 ≤ c.toNat && c.toNat ≤ 90) ||
  (48 ≤ c.toNat && c.toNat ≤ 57) ||
  c == '-' || c == '_' || c == '.' || c == '~'

/-- A hexadecimal digit as `upperhex` writes it. -/
def isUpperHex (c : Char) : Bool :=
  (48 ≤ c.toNat && c.toNat ≤ 57) || (65 ≤ c.toNat && c.toNat ≤ 70)

/-- The shape of C10: the text is made of unreserved characters, of characters of
`extra`, and of triplets of `%` and two hexadecimal digits. C10 as written is the case
where `extra` is empty. -/
def escapedWith (extra : List Char) : List Char → Bool
  | [] => true
  | c :: rest =>
    if c = '%' then
      match rest with
      | a :: b :: rest' => isUpperHex a && isUpperHex b && escapedWith extra rest'
      | _ => false
    else (isUnreserved c || extra.contains c) && escapedWith extra rest

/-- The characters that have a meaning of their own in a pattern (the ones that Go
`regexp.QuoteMeta` escapes). -/
def metaChars : List Char :=
  ['\\', '.', '+', '*', '?', '(', ')', '|', '[', ']', '{', '}', '^', '$']

/-- A text without pattern metacharacters. -/
def isLiteralText (s : String) : Bool :=
  s.data.all (fun c => !metaChars.contains c)

/-- The text contains `s` as a substring, compared ignoring ASCII letter case. -/
def ContainsFold (text s : String) : Prop :=
  s.data.map Char.toLower <:+: text.data.map Char.toLower

/-- The text ends with `s`, compared ignoring ASCII letter case. -/
def EndsWithFold (text s : String) : Prop :=
  s.data.map Char.toLower <:+ text.data.map Char.toLower

/-- The tree of a text without metacharacters: its characters one after the other. -/
def literalWord (foldCase : Bool) (w : String) : Regexp :=
  concatOf (w.data.map (fun c => Regexp.literal c foldCase))

/-- The parser between two tokens. -/
def Parser.between (fl : Flags) (alts seq : List Regexp) (stack : List (Frame × Flags)) :
    Parser :=
  { flags := fl, cur := { alts := alts, seq := seq }, stack := stack, mode := .normal,
    rep := .none }

/-- The effective exclusion pattern of the handler compiles and does not match the path
of the request. -/
def Handler.pathNotExcluded (compile : Compiler) (h : Handler) (ctx : Ctx) : Bool :=
  match compile ("(?i)" ++ h.excludeUrlPattern) with
  | some ex => !ex ctx.path
  | none => false

/-- The effective user agent pattern of the handler compiles. -/
def Handler.userAgentPatternCompiles (compile : Compiler) (h : Handler) : Bool :=
  (compile ("(?i)" ++ h.userAgentPattern)).isSome

/-! ## Concrete inputs -/

/-- A request of user agent `ua` for `https://internal.local` ++ `originalURL`, whose
`X-Forwarded-Host` header is `forwarded` and which has no header of another name. -/
def exampleCtx (ua path originalURL forwarded : String) : Ctx :=
  { userAgent := ua
    path := path
    protocol := "https"
    host := "internal.local"
    originalURL := originalURL
    get := fun name => if name = "X-Forwarded-Host" then forwarded else ""
    response := { status := 404, contentType := "text/plain", body := [] } }

/-- A world where the next handler answers 204 and returns the error `next`, and where
`client.Get` gives `got` for every URL. -/
def exampleWorld (got : Except GoError UpstreamResponse) : World :=
  { next := fun r => (some "next", { r with status := 204 })
    httpGet := fun _ _ => got }

/-- An upstream response of the given status and body, read to the end. -/
def exampleUpstream (status : Nat) (header : List (String × String)) (body : String) :
    UpstreamResponse :=
  { statusCode := status, header := header, readAll := (goBytes body, none) }

/-- An upstream response whose body breaks off after `read` with the error `e`. -/
def brokenUpstream (read : String) (e : GoError) : UpstreamResponse :=
  { statusCode := 200, header := [], readAll := (goBytes read, some e) }

/-- The configuration of the URL construction example. -/
def exampleConfig : Options :=
  { ProxyUrl := "https://render.example/render/" }

/-- The configuration of the host resolution example. -/
def allowListConfig : Options :=
  { ProxyUrl := "https://render.example/render/", AllowedForwardedHosts := ["example.com"] }

/-- A configuration whose user agent pattern does not compile. -/
def malformedConfig : Options :=
  { ProxyUrl := "https://render.example/render/", UserAgentPattern := "(" }

/-- A configuration with an extra extension that holds a repetition operator. -/
def plusExtensionConfig : Options :=
  { ProxyUrl := "https://render.example/render/", ExtraExcludeUrls := ["a+"] }

/-- A configuration with an extra signature that holds a repetition operator. -/
def plusSignatureConfig : Options :=
  { ProxyUrl := "https://render.example/render/", ExtraBotUserAgents := ["search+bot"] }

/-- A configuration with the empty text as an extra signature. -/
def emptySignatureConfig : Options :=
  { ProxyUrl := "https://render.example/render/", ExtraBotUserAgents := [""] }

/-- A configuration whose exclusion pattern does not compile. -/
def malformedExcludeConfig : Options :=
  { ProxyUrl := "https://render.example/render/", ExcludeUrlPattern := "(" }

/-! ## Lemmas on the handler -/

theorem contains_eq_true_iff (arr : List String) (target : String) :
    contains arr target = true ↔ target ∈ arr := by
  induction arr with
  | nil => simp [contains]
  | cons a rest ih =>
    by_cases hEq : a = target
    · simp [contains, hEq]
    · have hne : ¬ target = a := fun e => hEq e.symm
      simp [contains, hEq, hne, ih]

theorem New_handler_fields {config : Options} {rest : List Options} {h : Handler}
    (hNew : New (config :: rest) = .handler h) :
    config.ProxyUrl ≠ "" ∧
    h.proxyUrl = claimedBase config ∧
    h.userAgentPattern =
      (if config.UserAgentPattern = "" then
        strings.Join (BotUserAgents ++ config.ExtraBotUserAgents) "|"
       else config.UserAgentPattern) ∧
    h.excludeUrlPattern =
      (if config.ExcludeUrlPattern = "" then
        "\\.(" ++ strings.Join (StaticFileExtensions ++ config.ExtraExcludeUrls) "|" ++ ")$"
       else config.ExcludeUrlPattern) ∧
    h.injectShadyDom = config.InjectShadyDom ∧
    h.allowedForwardedHosts = config.AllowedForwardedHosts ∧
    h.forwardedHostHeader =
      (if config.AllowedForwardedHosts = [] then ""
       else if config.ForwardedHostHeader = "" then "X-Forwarded-Host"
       else config.ForwardedHostHeader) := by
  unfold New at hNew
  by_cases hp : config.ProxyUrl = ""
  · simp [hp] at hNew
  · simp only [beq_iff_eq, hp, if_false, Setup.handler.injEq] at hNew
    subst hNew
    unfold New.captured
    refine ⟨hp, ?_, ?_, ?_, rfl, rfl, ?_⟩
    · simp only [claimedBase]
      by_cases hs : strings.HasSuffix config.ProxyUrl "/" = true <;> simp [hs]
    · by_cases hu : config.UserAgentPattern = "" <;> simp [hu]
    · by_cases hu : config.ExcludeUrlPattern = "" <;> simp [hu]
    · by_cases ha : config.AllowedForwardedHosts = []
      · simp [ha]
      · have hl : ¬ config.AllowedForwardedHosts.length = 0 := by
          simpa [List.length_eq_zero] using ha
        by_cases hf : config.ForwardedHostHeader = "" <;>
          simp [ha, hl, hf, defaultForwardedHostHeader]

theorem New_of_proxyUrl_ne (config : Options) (rest : List Options)
    (hp : config.ProxyUrl ≠ "") : ∃ h, New (config :: rest) = .handler h := by
  unfold New
  simp only [beq_iff_eq, hp, if_false]
  exact ⟨_, rfl⟩

theorem New_eq_captured (config : Options) (rest : List Options)
    (hp : config.ProxyUrl ≠ "") : New (config :: rest) = .handler (New.captured config) := by
  unfold New
  simp only [beq_iff_eq, hp, if_false]

theorem Serve_of_eligible (compile : Compiler) (h : Handler) (ctx : Ctx) (w : World)
    (hEl : h.eligible compile ctx = true) : h.Serve compile ctx w = h.proxy ctx w := by
  unfold Handler.eligible at hEl
  unfold Handler.Serve
  cases hua : compile ("(?i)" ++ h.userAgentPattern) with
  | none => simp [hua] at hEl
  | some ua =>
    cases hex : compile ("(?i)" ++ h.excludeUrlPattern) with
    | none => simp [hex] at hEl
    | some ex =>
      simp only [hua, hex, Bool.and_eq_true, bne_iff_ne, ne_eq, Bool.not_eq_true'] at hEl
      obtain ⟨⟨h1, h2⟩, h3⟩ := hEl
      simp [h1, h2, h3]

theorem resolveHost_eq_claimedHost {config : Options} {rest : List Options} {h : Handler}
    (hNew : New (config :: rest) = .handler h) (ctx : Ctx) :
    h.resolveHost ctx = claimedHost config ctx := by
  obtain ⟨_, _, _, _, _, hAllowed, hHeader⟩ := New_handler_fields hNew
  unfold Handler.resolveHost claimedHost forwardedValue
  rw [hAllowed, hHeader]
  by_cases ha : config.AllowedForwardedHosts = []
  · simp [ha]
  · by_cases hf : config.ForwardedHostHeader = ""
    · by_cases hv : ctx.get "X-Forwarded-Host" = "" <;>
        simp [ha, hf, hv, contains_eq_true_iff]
    · by_cases hv : ctx.get config.ForwardedHostHeader = "" <;>
        simp [ha, hf, hv, contains_eq_true_iff]

theorem renderUrl_eq {config : Options} {rest : List Options} {h : Handler}
    (hNew : New (config :: rest) = .handler h) (ctx : Ctx) :
    h.renderUrl ctx =
      claimedBase config ++
        url.QueryEscape (ctx.protocol ++ "://" ++ h.resolveHost ctx ++ ctx.originalURL) ++
        claimedFlag config := by
  obtain ⟨_, hBase, _, _, hInject, _, _⟩ := New_handler_fields hNew
  unfold Handler.renderUrl Handler.incomingUrl claimedFlag
  rw [hBase, hInject]
  by_cases hi : config.InjectShadyDom = true <;> simp [hi]

theorem proxy_of_get_error (h : Handler) (ctx : Ctx) (w : World) (e : GoError)
    (hg : w.httpGet h.client (h.renderUrl ctx) = .error e) :
    h.proxy ctx w =
      .returned { err := some e, response := ctx.response, fetched := [h.renderUrl ctx] } := by
  simp only [Handler.proxy, hg]

theorem proxy_of_read_error (h : Handler) (ctx : Ctx) (w : World) (up : UpstreamResponse)
    (read : List Nat) (e : GoError)
    (hg : w.httpGet h.client (h.renderUrl ctx) = .ok up) (hr : up.readAll = (read, some e)) :
    h.proxy ctx w =
      .returned { err := some e, response := ctx.response, fetched := [h.renderUrl ctx] } := by
  simp only [Handler.proxy, hg, hr]

theorem proxy_of_body (h : Handler) (ctx : Ctx) (w : World) (up : UpstreamResponse)
    (body : List Nat)
    (hg : w.httpGet h.client (h.renderUrl ctx) = .ok up) (hr : up.readAll = (body, none)) :
    h.proxy ctx w =
      .returned { err := none,
                  response := { status := 200, contentType := "text/html", body := body },
                  fetched := [h.renderUrl ctx] } := by
  simp only [Handler.proxy, hg, hr]

theorem proxy_fetched (h : Handler) (ctx : Ctx) (w : World) :
    ∃ o, h.proxy ctx w = .returned o ∧ o.fetched = [h.renderUrl ctx] := by
  cases hg : w.httpGet h.client (h.renderUrl ctx) with
  | error e => exact ⟨_, proxy_of_get_error h ctx w e hg, rfl⟩
  | ok up =>
    rcases hr : up.readAll with ⟨body, _ | e⟩
    · exact ⟨_, proxy_of_body h ctx w up body hg hr, rfl⟩
    · exact ⟨_, proxy_of_read_error h ctx w up body e hg hr, rfl⟩

theorem Serve_of_excluded (compile : Compiler) (h : Handler) (ctx : Ctx) (w : World)
    (ex : Matcher)
    (hUa : ctx.userAgent = "" ∨ h.userAgentPatternCompiles compile = true)
    (hEx : compile ("(?i)" ++ h.excludeUrlPattern) = some ex)
    (hMatch : ex ctx.path = true) :
    h.Serve compile ctx w =
      .returned { err := (w.next ctx.response).1,
                  response := (w.next ctx.response).2,
                  fetched := [] } ∧
    h.eligible compile ctx = false := by
  unfold Handler.Serve Handler.eligible passNext
  by_cases hEmpty : ctx.userAgent = ""
  · simp [hEmpty]
  · rcases hUa with hUa | hUa
    · exact absurd hUa hEmpty
    · unfold Handler.userAgentPatternCompiles at hUa
      cases hc : compile ("(?i)" ++ h.userAgentPattern) with
      | none => simp [hc] at hUa
      | some ua =>
        by_cases hm : ua ctx.userAgent = true
        · simp [hEmpty, hm, hEx, hMatch]
        · simp [hEmpty, hm, hEx, hMatch]

/-! ## Lemmas on `url.QueryEscape` -/

theorem upperhex_isUpperHex (n : Nat) : isUpperHex (upperhex n) = true := by
  rcases Nat.lt_or_ge n 16 with hlt | hge
  · interval_cases n <;> decide
  · have hzero : upperhex n = '0' := by
      unfold upperhex
      exact List.getD_eq_default _ _ (by simpa using hge)
    rw [hzero]
    decide

theorem shouldEscape_false_le (b : Nat) (hb : shouldEscape b = false) : b ≤ 126 := by
  unfold shouldEscape at hb
  split at hb
  · omega
  · split at hb
    · omega
    · simp at hb

theorem unreserved_of_not_shouldEscape (b : Nat) (hb : shouldEscape b = false) :
    isUnreserved (Char.ofNat b) = true ∧ Char.ofNat b ≠ '%' ∧ Char.ofNat b ≠ '+' := by
  have hle := shouldEscape_false_le b hb
  interval_cases b <;> first | (exact absurd hb (by decide)) | decide

theorem isUpperHex_ne (c : Char) (hc : isUpperHex c = true) : c ≠ '+' ∧ c ≠ '%' := by
  constructor
  · rintro rfl
    exact absurd hc (by decide)
  · rintro rfl
    exact absurd hc (by decide)

theorem isUpperHex_isUnreserved (c : Char) (hc : isUpperHex c = true) :
    isUnreserved c = true := by
  simp only [isUpperHex, Bool.or_eq_true, Bool.and_eq_true, decide_eq_true_eq] at hc
  simp only [isUnreserved, Bool.or_eq_true, Bool.and_eq_true, decide_eq_true_eq]
  omega

/-- The characters that `escapeByte` writes. -/
theorem escapeByte_chars (b : Nat) (c : Char) (hc : c ∈ escapeByte b) :
    isUnreserved c = true ∨ c = '+' ∨ c = '%' := by
  unfold escapeByte at hc
  split at hc
  · simp at hc
    exact Or.inr (Or.inl hc)
  · split at hc
    · simp only [List.mem_cons, List.mem_singleton, List.not_mem_nil, or_false] at hc
      rcases hc with rfl | rfl | rfl
      · exact Or.inr (Or.inr rfl)
      · exact Or.inl (isUpperHex_isUnreserved _ (upperhex_isUpperHex _))
      · exact Or.inl (isUpperHex_isUnreserved _ (upperhex_isUpperHex _))
    · rename_i _ hne
      simp only [List.mem_singleton] at hc
      subst hc
      exact Or.inl (unreserved_of_not_shouldEscape b (by simpa using hne)).1

theorem plus_mem_escapeByte (b : Nat) : '+' ∈ escapeByte b ↔ b = 32 := by
  unfold escapeByte
  split
  · rename_i h32
    simp [h32]
  · rename_i h32
    split
    · simp only [List.mem_cons, List.mem_singleton, List.not_mem_nil, or_false, h32,
        iff_false, not_or]
      refine ⟨by decide, fun h => ?_, fun h => ?_⟩
      · exact (isUpperHex_ne _ (upperhex_isUpperHex (b / 16))).1 h.symm
      · exact (isUpperHex_ne _ (upperhex_isUpperHex (b % 16))).1 h.symm
    · rename_i hne
      simp only [List.mem_singleton, h32, iff_false]
      intro h
      exact (unreserved_of_not_shouldEscape b (by simpa using hne)).2.2 h.symm

theorem escapedWith_cons_of_ne (extra : List Char) (c : Char) (rest : List Char)
    (hc : c ≠ '%') :
    escapedWith extra (c :: rest) =
      ((isUnreserved c || extra.contains c) && escapedWith extra rest) := by
  rcases rest with _ | ⟨a, _ | ⟨b, t⟩⟩ <;> simp [escapedWith, hc]

theorem escapedWith_triplet (extra : List Char) (a b : Char) (rest : List Char) :
    escapedWith extra ('%' :: a :: b :: rest) =
      (isUpperHex a && isUpperHex b && escapedWith extra rest) := by
  simp [escapedWith]

theorem escapedWith_escapeByte_append (b : Nat) (rest : List Char)
    (hrest : escapedWith ['+'] rest = true) :
    escapedWith ['+'] (escapeByte b ++ rest) = true := by
  unfold escapeByte
  split
  · rw [List.singleton_append, escapedWith_cons_of_ne _ _ _ (by decide), hrest]
    decide
  · split
    · show escapedWith ['+'] ('%' :: upperhex (b / 16) :: upperhex (b % 16) :: rest) = true
      rw [escapedWith_triplet, upperhex_isUpperHex, upperhex_isUpperHex, hrest]
      rfl
    · rename_i hne
      obtain ⟨hu, hp, _⟩ := unreserved_of_not_shouldEscape b (by simpa using hne)
      rw [List.singleton_append, escapedWith_cons_of_ne _ _ _ hp, hu, hrest]
      rfl

theorem escapedWith_escapeBytes (bs : List Nat) :
    escapedWith ['+'] (escapeBytes bs) = true := by
  induction bs with
  | nil => rfl
  | cons b rest ih =>
    have hcons : escapeBytes (b :: rest) = escapeByte b ++ escapeBytes rest := by
      simp [escapeBytes]
    rw [hcons]
    exact escapedWith_escapeByte_append b _ ih

theorem safe_char_bounds (c : Char)
    (hc : isUnreserved c = true ∨ c = '+' ∨ c = '%') :
    c.toNat < 128 ∧ c ∉ ['/', '?', '#', '&', '=', ':', ' '] := by
  constructor
  · rcases hc with hu | rfl | rfl
    · simp only [isUnreserved, Bool.or_eq_true, Bool.and_eq_true, decide_eq_true_eq,
        beq_iff_eq] at hu
      rcases hu with ((((((h | h) | h) | h) | h) | h) | h)
      · omega
      · omega
      · omega
      · subst h; decide
      · subst h; decide
      · subst h; decide
      · subst h; decide
    · decide
    · decide
  · intro hmem
    simp only [List.mem_cons, List.mem_singleton, List.not_mem_nil, or_false] at hmem
    rcases hmem with rfl | rfl | rfl | rfl | rfl | rfl | rfl <;>
      exact absurd hc (by decide)

/-! ## Lemmas on the parser -/

theorem normalStep_literal (fl : Flags) (alts seq : List Regexp)
    (stack : List (Frame × Flags)) (c : Char) (hc : metaChars.contains c = false) :
    (Parser.between fl alts seq stack).step c =
      some (Parser.between fl alts (Regexp.literal c fl.foldCase :: seq) stack) := by
  simp only [metaChars, List.contains_eq_any_beq, List.any_cons, List.any_nil,
    Bool.or_false, Bool.or_eq_false_iff, beq_eq_false_iff_ne, ne_eq] at hc
  obtain ⟨h1, h2, h3, h4, h5, h6, h7, h8, h9, h10, h11, h12, h13, h14⟩ := hc
  simp [Parser.step, Parser.between, Parser.normalStep, Parser.push, h1, h2, h3, h4, h5, h6,
    h7, h8, h9, h11, h13, h14]

theorem steps_cons (c : Char) (cs : List Char) (p q : Parser) (h : p.step c = some q) :
    Parser.steps (c :: cs) p = Parser.steps cs q := by
  simp [Parser.steps, h]

theorem steps_literal_text (fl : Flags) (alts : List Regexp) (stack : List (Frame × Flags))
    (w rest : List Char) (hw : ∀ c ∈ w, metaChars.contains c = false) (seq : List Regexp) :
    Parser.steps (w ++ rest) (Parser.between fl alts seq stack) =
      Parser.steps rest (Parser.between fl alts
        ((w.map (fun c => Regexp.literal c fl.foldCase)).reverse ++ seq) stack) := by
  induction w generalizing seq with
  | nil => simp
  | cons c w ih =>
    rw [List.cons_append, steps_cons c _ _ _
      (normalStep_literal fl alts seq stack c (hw c (List.mem_cons_self _ _))),
      ih (fun d hd => hw d (List.mem_cons_of_mem _ hd))]
    simp

theorem step_bar (fl : Flags) (alts seq : List Regexp) (stack : List (Frame × Flags)) :
    (Parser.between fl alts seq stack).step '|' =
      some (Parser.between fl (concatOf seq.reverse :: alts) [] stack) := by
  simp [Parser.step, Parser.between, Parser.normalStep]

theorem isLiteralText_iff (w : String) :
    isLiteralText w = true ↔ ∀ c ∈ w.data, metaChars.contains c = false := by
  simp [isLiteralText, List.all_eq_true]

/-- The alternatives `w | ws` of texts without metacharacters, read inside a group. -/
theorem steps_joined (fl : Flags) (stack : List (Frame × Flags)) (rest : List Char)
    (ws : List String) (w : String) (alts : List Regexp)
    (hlit : ∀ x ∈ w :: ws, isLiteralText x = true) :
    ∃ alts' seq',
      Parser.steps ((strings.Join (w :: ws) "|").data ++ rest)
          (Parser.between fl alts [] stack) =
        Parser.steps rest (Parser.between fl alts' seq' stack) ∧
      Frame.close { alts := alts', seq := seq' } =
        alternateOf (alts.reverse ++ (w :: ws).map (literalWord fl.foldCase)) := by
  induction ws generalizing w alts with
  | nil =>
    refine ⟨alts, (w.data.map (fun c => Regexp.literal c fl.foldCase)).reverse, ?_, ?_⟩
    · have h := steps_literal_text fl alts stack w.data rest
        ((isLiteralText_iff w).1 (hlit w (List.mem_cons_self _ _))) []
      simpa [strings.Join] using h
    · simp [Frame.close, literalWord]
  | cons w₂ ws ih =>
    obtain ⟨alts', seq', hsteps, hclose⟩ := ih w₂ (literalWord fl.foldCase w :: alts)
      (fun x hx => hlit x (List.mem_cons_of_mem _ hx))
    refine ⟨alts', seq', ?_, ?_⟩
    · have hdata : (strings.Join (w :: w₂ :: ws) "|").data ++ rest =
          w.data ++ ('|' :: ((strings.Join (w₂ :: ws) "|").data ++ rest)) := by
        simp [strings.Join, String.data_append]
      rw [hdata, steps_literal_text fl alts stack w.data _
        ((isLiteralText_iff w).1 (hlit w (List.mem_cons_self _ _))) [],
        steps_cons '|' _ _ _ (step_bar fl alts _ stack)]
      simpa [literalWord] using hsteps
    · rw [hclose]
      simp

theorem steps_fold_flag (rest : List Char) :
    Parser.steps ('(' :: '?' :: 'i' :: ')' :: rest) Parser.init =
      Parser.steps rest (Parser.between { foldCase := true, dotNL := false } [] [] []) := by
  rfl

theorem steps_dot_group (fl : Flags) (c : Char) (rest : List Char) (hc : c ≠ '?') :
    Parser.steps ('\\' :: '.' :: '(' :: c :: rest) (Parser.between fl [] [] []) =
      Parser.steps (c :: rest)
        (Parser.between fl [] [] [({ alts := [], seq := [Regexp.literal '.' fl.foldCase] }, fl)]) := by
  have h1 : (Parser.between fl [] [] []).step '\\' =
      some { Parser.between fl [] [] [] with mode := .escape } := by
    simp [Parser.step, Parser.between, Parser.normalStep]
  have h2 : ({ Parser.between fl [] [] [] with mode := .escape } : Parser).step '.' =
      some (Parser.between fl [] [Regexp.literal '.' fl.foldCase] []) := by
    simp [Parser.step, Parser.between, Parser.push]
  have h3 : (Parser.between fl [] [Regexp.literal '.' fl.foldCase] []).step '(' =
      some { Parser.between fl [] [Regexp.literal '.' fl.foldCase] [] with mode := .paren } := by
    simp [Parser.step, Parser.between, Parser.normalStep]
  rw [steps_cons _ _ _ _ h1, steps_cons _ _ _ _ h2, steps_cons _ _ _ _ h3]
  simp only [Parser.steps, Parser.step, if_neg hc]
  rfl

theorem step_close_group (fl fl' : Flags) (alts seq : List Regexp) (outer : Frame) :
    (Parser.between fl alts seq [(outer, fl')]).step ')' =
      some (Parser.between fl' outer.alts
        (Frame.close { alts := alts, seq := seq } :: outer.seq) []) := by
  simp [Parser.step, Parser.between, Parser.normalStep]

theorem step_dollar (fl : Flags) (alts seq : List Regexp) :
    (Parser.between fl alts seq []).step '$' =
      some (Parser.between fl alts (Regexp.endText :: seq) []) := by
  simp [Parser.step, Parser.between, Parser.normalStep, Parser.push]

theorem joined_head_ne_quest (w : String) (ws : List String)
    (hlit : ∀ x ∈ w :: ws, isLiteralText x = true) (tail : List Char) :
    ∃ c cs, (strings.Join (w :: ws) "|").data ++ ')' :: tail = c :: cs ∧ c ≠ '?' := by
  have hw := (isLiteralText_iff w).1 (hlit w (List.mem_cons_self _ _))
  have hfirst : ∀ (m : Char) (ms : List Char), m ≠ '?' →
      ∃ c cs, w.data ++ m :: ms = c :: cs ∧ c ≠ '?' := by
    intro m ms hm
    rcases hd : w.data with _ | ⟨c, cs⟩
    · exact ⟨m, ms, rfl, hm⟩
    · refine ⟨c, cs ++ m :: ms, rfl, ?_⟩
      have := hw c (by rw [hd]; exact List.mem_cons_self _ _)
      rintro rfl
      exact absurd this (by decide)
  cases ws with
  | nil =>
    obtain ⟨c, cs, hEq, hc⟩ := hfirst ')' tail (by decide)
    exact ⟨c, cs, by simpa [strings.Join] using hEq, hc⟩
  | cons w₂ ws =>
    obtain ⟨c, cs, hEq, hc⟩ :=
      hfirst '|' ((strings.Join (w₂ :: ws) "|").data ++ ')' :: tail) (by decide)
    exact ⟨c, cs, by simpa [strings.Join, String.data_append] using hEq, hc⟩

/-- The default user agent pattern, compiled: the alternation of the signatures. -/
theorem compile_joined (w : String) (ws : List String)
    (hlit : ∀ x ∈ w :: ws, isLiteralText x = true) :
    regexp.Compile ("(?i)" ++ strings.Join (w :: ws) "|") =
      some (alternateOf ((w :: ws).map (literalWord true))) := by
  obtain ⟨alts', seq', hsteps, hclose⟩ :=
    steps_joined { foldCase := true, dotNL := false } [] [] ws w [] hlit
  have hdata : ("(?i)" ++ strings.Join (w :: ws) "|").data =
      '(' :: '?' :: 'i' :: ')' :: ((strings.Join (w :: ws) "|").data ++ []) := by
    simp [String.data_append]
  unfold regexp.Compile
  rw [hdata, steps_fold_flag, hsteps]
  simp only [Parser.steps, Parser.finish, Parser.between, hclose]
  simp

/-- The default exclusion pattern, compiled: a dot, one of the extensions, the end. -/
theorem compile_extensions (w : String) (ws : List String)
    (hlit : ∀ x ∈ w :: ws, isLiteralText x = true) :
    regexp.Compile ("(?i)" ++ ("\\.(" ++ strings.Join (w :: ws) "|" ++ ")$")) =
      some (alternateOf [concatOf [Regexp.literal '.' true,
        alternateOf ((w :: ws).map (literalWord true)), Regexp.endText]]) := by
  obtain ⟨c, cs, hhead, hc⟩ := joined_head_ne_quest w ws hlit ['$']
  obtain ⟨alts', seq', hsteps, hclose⟩ :=
    steps_joined { foldCase := true, dotNL := false }
      [({ alts := [], seq := [Regexp.literal '.' true] }, { foldCase := true, dotNL := false })]
      [')', '$'] ws w [] hlit
  have hdata : ("(?i)" ++ ("\\.(" ++ strings.Join (w :: ws) "|" ++ ")$")).data =
      '(' :: '?' :: 'i' :: ')' :: '\\' :: '.' :: '(' ::
        ((strings.Join (w :: ws) "|").data ++ [')', '$']) := by
    simp [String.data_append]
  unfold regexp.Compile
  rw [hdata, steps_fold_flag, hhead, steps_dot_group _ c cs hc, ← hhead, hsteps,
    steps_cons _ _ _ _ (step_close_group _ _ _ _ _), steps_cons _ _ _ _ (step_dollar _ _ _)]
  simp only [Parser.steps, Parser.finish, Parser.between, hclose]
  simp [Frame.close, concatOf, alternateOf]

/-! ## Lemmas on matching -/

theorem foldKey_eq_of_toLower (x c : Char) (h : x.toLower = c.toLower) :
    foldKey x = foldKey c := by
  simp only [foldKey, h]

theorem rests_literal_word (n : Nat) (w mid post : List Char)
    (h : mid.map Char.toLower = w.map Char.toLower) :
    post ∈ (concatOf (w.map (fun c => Regexp.literal c true))).rests n (mid ++ post) := by
  induction w generalizing mid with
  | nil =>
    have hmid : mid = [] := by simpa using h
    subst hmid
    simp [concatOf, Regexp.rests]
  | cons c w ih =>
    cases mid with
    | nil => simp at h
    | cons x mid =>
      simp only [List.map_cons, List.cons.injEq] at h
      have hrest := ih mid h.2
      simp only [concatOf] at hrest
      simp [concatOf, Regexp.rests, foldKey_eq_of_toLower x c h.1, hrest]

theorem rests_alternateOf (n : Nat) (rs : List Regexp) (r : Regexp) (hr : r ∈ rs)
    (s t : List Char) (ht : t ∈ r.rests n s) : t ∈ (alternateOf rs).rests n s := by
  induction rs with
  | nil => simp at hr
  | cons a rs ih =>
    have hcons : (alternateOf (a :: rs)).rests n s = a.rests n s ++ (alternateOf rs).rests n s := by
      simp [alternateOf, Regexp.rests]
    rw [hcons, List.mem_append]
    rcases List.mem_cons.1 hr with rfl | hmem
    · exact Or.inl ht
    · exact Or.inr (ih hmem)

theorem rests_concat (n : Nat) (a b : Regexp) (s t u : List Char)
    (ht : t ∈ a.rests n s) (hu : u ∈ b.rests n t) : u ∈ (Regexp.concat a b).rests n s := by
  simp only [Regexp.rests, List.mem_flatMap]
  exact ⟨t, ht, hu⟩

theorem MatchString_of_rests (re : Regexp) (text : String) (pre s t : List Char)
    (hs : text.data = pre ++ s) (ht : t ∈ re.rests text.data.length s) :
    re.MatchString text = true := by
  unfold Regexp.MatchString
  rw [List.any_eq_true]
  refine ⟨s, (List.mem_tails _ _).2 ⟨pre, hs.symm⟩, ?_⟩
  cases hr : re.rests text.data.length s with
  | nil => rw [hr] at ht; simp at ht
  | cons a l => simp

/-- A text that contains one of the signatures matches their alternation. -/
theorem MatchString_signature (ws : List String) (w text : String) (hw : w ∈ ws)
    (hc : ContainsFold text w) :
    (alternateOf (ws.map (literalWord true))).MatchString text = true := by
  obtain ⟨pre', post', hEq⟩ := hc
  obtain ⟨front, post, hfront, hmapfront, _⟩ := List.map_eq_append_iff.1 hEq.symm
  obtain ⟨pre, mid, hsplit, _, hmid⟩ := List.map_eq_append_iff.1 hmapfront
  have htext : text.data = pre ++ (mid ++ post) := by
    rw [hfront, hsplit, List.append_assoc]
  refine MatchString_of_rests _ text pre (mid ++ post) post htext ?_
  exact rests_alternateOf _ _ (literalWord true w) (List.mem_map_of_mem _ hw) _ _
    (rests_literal_word _ w.data mid post hmid)

/-- A text that ends with a dot and one of the extensions matches the exclusion tree. -/
theorem MatchString_extension (ws : List String) (w text : String) (hw : w ∈ ws)
    (hc : EndsWithFold text ("." ++ w)) :
    (alternateOf [concatOf [Regexp.literal '.' true,
      alternateOf (ws.map (literalWord true)), Regexp.endText]]).MatchString text = true := by
  obtain ⟨pre', hEq⟩ := hc
  obtain ⟨pre, tail, hsplit, _, htail⟩ := List.map_eq_append_iff.1 hEq.symm
  have hdot : ("." ++ w).data = '.' :: w.data := by simp [String.data_append]
  rw [hdot, List.map_cons] at htail
  cases tail with
  | nil => simp at htail
  | cons x mid =>
    simp only [List.map_cons, List.cons.injEq] at htail
    refine MatchString_of_rests _ text pre (x :: mid) [] hsplit ?_
    refine rests_alternateOf _ _ _ (List.mem_singleton.2 rfl) _ _ ?_
    have hx : [mid] = (Regexp.literal '.' true).rests text.data.length (x :: mid) := by
      simp [Regexp.rests, foldKey_eq_of_toLower x '.' htail.1]
    have hgroup : [] ∈ (alternateOf (ws.map (literalWord true))).rests text.data.length mid := by
      have h := rests_alternateOf text.data.length _ (literalWord true w)
        (List.mem_map_of_mem _ hw) (mid ++ []) []
        (rests_literal_word _ w.data mid [] htail.2)
      simpa using h
    refine rests_concat _ _ _ _ mid _ (by rw [← hx]; exact List.mem_singleton.2 rfl) ?_
    refine rests_concat _ _ _ _ [] _ hgroup ?_
    refine rests_concat _ _ _ _ [] _ ?_ ?_
    · simp [Regexp.rests]
    · simp [Regexp.rests]

theorem botUserAgents_literal : ∀ x ∈ BotUserAgents, isLiteralText x = true := by
  decide

theorem staticFileExtensions_literal : ∀ x ∈ StaticFileExtensions, isLiteralText x = true := by
  decide

/-- The default user agent pattern of a handler, compiled by the model of Go regexp. -/
theorem goRegexp_default_userAgent (extras : List String)
    (hlit : ∀ x ∈ extras, isLiteralText x = true) :
    regexp.Compile ("(?i)" ++ strings.Join (BotUserAgents ++ extras) "|") =
      some (alternateOf ((BotUserAgents ++ extras).map (literalWord true))) := by
  have hall : ∀ x ∈ BotUserAgents ++ extras, isLiteralText x = true := by
    intro x hx
    rcases List.mem_append.1 hx with h | h
    · exact botUserAgents_literal x h
    · exact hlit x h
  have hcons : BotUserAgents ++ extras = "Baiduspider" :: (BotUserAgents.tail ++ extras) := rfl
  rw [hcons] at hall ⊢
  exact compile_joined _ _ hall

/-- The default exclusion pattern of a handler, compiled by the model of Go regexp. -/
theorem goRegexp_default_exclude (extras : List String)
    (hlit : ∀ x ∈ extras, isLiteralText x = true) :
    regexp.Compile
        ("(?i)" ++ ("\\.(" ++ strings.Join (StaticFileExtensions ++ extras) "|" ++ ")$")) =
      some (alternateOf [concatOf [Regexp.literal '.' true,
        alternateOf ((StaticFileExtensions ++ extras).map (literalWord true)),
        Regexp.endText]]) := by
  have hall : ∀ x ∈ StaticFileExtensions ++ extras, isLiteralText x = true := by
    intro x hx
    rcases List.mem_append.1 hx with h | h
    · exact staticFileExtensions_literal x h
    · exact hlit x h
  have hcons : StaticFileExtensions ++ extras = "ai" :: (StaticFileExtensions.tail ++ extras) :=
    rfl
  rw [hcons] at hall ⊢
  exact compile_extensions _ _ hall

/-! ## The claims -/

/-- C1 (host resolution): for a handler built by `New` and an eligible request, the host
resolved by the handler is the value `v` of the forwarded-host header exactly when the
allow-list is non-empty, `v` is non-empty and `v` is an element of the allow-list, and
the declared Host otherwise; that host is the one in the URL that is fetched. With an
empty allow-list the declared Host is used. -/
theorem C1_host_resolution (compile : Compiler) (config : Options) (rest : List Options)
    (h : Handler) (ctx : Ctx) (w : World)
    (hNew : New (config :: rest) = .handler h)
    (hEl : h.eligible compile ctx = true) :
    h.resolveHost ctx = claimedHost config ctx ∧
    (config.AllowedForwardedHosts = [] → h.resolveHost ctx = ctx.host) ∧
    ∃ o, h.Serve compile ctx w = .returned o ∧
      o.fetched =
        [h.proxyUrl ++
          url.QueryEscape (ctx.protocol ++ "://" ++ claimedHost config ctx ++ ctx.originalURL)
          ++ claimedFlag config] := by
  have hHost := resolveHost_eq_claimedHost hNew ctx
  refine ⟨hHost, ?_, ?_⟩
  · intro ha
    rw [hHost]
    simp [claimedHost, ha]
  · obtain ⟨o, ho, hf⟩ := proxy_fetched h ctx w
    refine ⟨o, (Serve_of_eligible compile h ctx w hEl).trans ho, ?_⟩
    rw [hf, renderUrl_eq hNew ctx, hHost, (New_handler_fields hNew).2.1]

/-- C1 at the allow-list `example.com` and the declared Host `internal.local`: the header
value `example.com` resolves to `example.com`, the header value `evil.com` to
`internal.local`. -/
theorem C1_host_resolution_witness :
    (New.captured allowListConfig).resolveHost
        (exampleCtx "Slackbot" "/a" "/a?b=1" "example.com") = "example.com" ∧
    (New.captured allowListConfig).resolveHost
        (exampleCtx "Slackbot" "/a" "/a?b=1" "evil.com") = "internal.local" :=
  ⟨(C1_host_resolution goRegexp allowListConfig [] (New.captured allowListConfig)
      (exampleCtx "Slackbot" "/a" "/a?b=1" "example.com") (exampleWorld (.error "refused"))
      (by rfl) (by decide)).1.trans (by decide),
   (C1_host_resolution goRegexp allowListConfig [] (New.captured allowListConfig)
      (exampleCtx "Slackbot" "/a" "/a?b=1" "evil.com") (exampleWorld (.error "refused"))
      (by rfl) (by decide)).1.trans (by decide)⟩

/-- C2 (render URL construction): for a handler built by `New` and an eligible request,
the one URL fetched is `base ++ escape(scheme ++ "://" ++ host ++ originalURL) ++ flag`,
where `base` is `ProxyUrl`, with a `/` added unless it ends with one already, and `flag`
is `?wc-inject-shadydom=true` when `InjectShadyDom` is set and empty otherwise; `base`
ends with `/`. -/
theorem C2_render_url (compile : Compiler) (config : Options) (rest : List Options)
    (h : Handler) (ctx : Ctx) (w : World)
    (hNew : New (config :: rest) = .handler h)
    (hEl : h.eligible compile ctx = true) :
    (∃ o, h.Serve compile ctx w = .returned o ∧
      o.fetched =
        [claimedBase config ++
          url.QueryEscape (ctx.protocol ++ "://" ++ h.resolveHost ctx ++ ctx.originalURL)
          ++ claimedFlag config]) ∧
    strings.HasSuffix (claimedBase config) "/" = true := by
  constructor
  · obtain ⟨o, ho, hf⟩ := proxy_fetched h ctx w
    exact ⟨o, (Serve_of_eligible compile h ctx w hEl).trans ho,
      hf.trans (congrArg (fun u => [u]) (renderUrl_eq hNew ctx))⟩
  · unfold claimedBase
    by_cases hs : strings.HasSuffix config.ProxyUrl "/" = true
    · simp [hs]
    · simp only [hs]
      simp [strings.HasSuffix, List.isSuffixOf]

/-- C2 at scheme `https`, host `example.com`, path and query `/a?b=1` and the base
`https://render.example/render/`, without and with `InjectShadyDom`. -/
theorem C2_render_url_witness :
    (∃ o, (New.captured exampleConfig).Serve goRegexp
        { exampleCtx "Slackbot" "/a" "/a?b=1" "" with host := "example.com" }
        (exampleWorld (.error "refused")) = .returned o ∧
      o.fetched =
        ["https://render.example/render/https%3A%2F%2Fexample.com%2Fa%3Fb%3D1"]) ∧
    (∃ o, (New.captured { exampleConfig with InjectShadyDom := true }).Serve goRegexp
        { exampleCtx "Slackbot" "/a" "/a?b=1" "" with host := "example.com" }
        (exampleWorld (.error "refused")) = .returned o ∧
      o.fetched =
        ["https://render.example/render/https%3A%2F%2Fexample.com%2Fa%3Fb%3D1" ++
          "?wc-inject-shadydom=true"]) := by
  constructor
  · obtain ⟨o, ho, hf⟩ := (C2_render_url goRegexp exampleConfig []
      (New.captured exampleConfig)
      { exampleCtx "Slackbot" "/a" "/a?b=1" "" with host := "example.com" }
      (exampleWorld (.error "refused")) (by rfl) (by decide)).1
    exact ⟨o, ho, hf.trans (by decide)⟩
  · obtain ⟨o, ho, hf⟩ := (C2_render_url goRegexp { exampleConfig with InjectShadyDom := true }
      [] (New.captured { exampleConfig with InjectShadyDom := true })
      { exampleCtx "Slackbot" "/a" "/a?b=1" "" with host := "example.com" }
      (exampleWorld (.error "refused")) (by rfl) (by decide)).1
    exact ⟨o, ho, hf.trans (by decide)⟩

/-- C3 (upstream status is not propagated): for an eligible request whose fetch succeeds
and whose body is read to the end, the handler returns nil with status 200, content type
`text/html` and the upstream body, whatever the upstream status code and headers: two
upstream responses with the same body give the same result. -/
theorem C3_upstream_status_not_propagated (compile : Compiler) (h : Handler) (ctx : Ctx)
    (w₁ w₂ : World) (up₁ up₂ : UpstreamResponse) (body : List Nat)
    (hEl : h.eligible compile ctx = true)
    (hGet₁ : w₁.httpGet h.client (h.renderUrl ctx) = .ok up₁)
    (hGet₂ : w₂.httpGet h.client (h.renderUrl ctx) = .ok up₂)
    (hBody₁ : up₁.readAll = (body, none))
    (hBody₂ : up₂.readAll = (body, none)) :
    h.Serve compile ctx w₁ =
      .returned { err := none,
                  response := { status := 200, contentType := "text/html", body := body },
                  fetched := [h.renderUrl ctx] } ∧
    h.Serve compile ctx w₂ = h.Serve compile ctx w₁ := by
  have h₁ := (Serve_of_eligible compile h ctx w₁ hEl).trans
    (proxy_of_body h ctx w₁ up₁ body hGet₁ hBody₁)
  have h₂ := (Serve_of_eligible compile h ctx w₂ hEl).trans
    (proxy_of_body h ctx w₂ up₂ body hGet₂ hBody₂)
  exact ⟨h₁, h₂.trans h₁.symm⟩

/-- C3 at an upstream answer of status 503 and body `<html>fallback</html>`, next to one
of status 200 with the same body. -/
theorem C3_upstream_status_not_propagated_witness :
    (New.captured exampleConfig).Serve goRegexp (exampleCtx "Slackbot" "/a" "/a?b=1" "")
        (exampleWorld (.ok (exampleUpstream 503 [("Retry-After", "120")]
          "<html>fallback</html>"))) =
      .returned { err := none,
                  response := { status := 200, contentType := "text/html",
                                body := goBytes "<html>fallback</html>" },
                  fetched := [(New.captured exampleConfig).renderUrl
                    (exampleCtx "Slackbot" "/a" "/a?b=1" "")] } ∧
    (New.captured exampleConfig).Serve goRegexp (exampleCtx "Slackbot" "/a" "/a?b=1" "")
        (exampleWorld (.ok (exampleUpstream 200 [] "<html>fallback</html>"))) =
      (New.captured exampleConfig).Serve goRegexp (exampleCtx "Slackbot" "/a" "/a?b=1" "")
        (exampleWorld (.ok (exampleUpstream 503 [("Retry-After", "120")]
          "<html>fallback</html>"))) :=
  C3_upstream_status_not_propagated goRegexp (New.captured exampleConfig)
    (exampleCtx "Slackbot" "/a" "/a?b=1" "")
    (exampleWorld (.ok (exampleUpstream 503 [("Retry-After", "120")] "<html>fallback</html>")))
    (exampleWorld (.ok (exampleUpstream 200 [] "<html>fallback</html>")))
    (exampleUpstream 503 [("Retry-After", "120")] "<html>fallback</html>")
    (exampleUpstream 200 [] "<html>fallback</html>")
    (goBytes "<html>fallback</html>") (by decide) rfl rfl rfl rfl

/-- C4 (empty user agent is never eligible): for every handler built by `New`, every
pattern compiler and every request with an empty user agent, the handler returns what
the next handler returns on the untouched response, and fetches nothing. -/
theorem C4_empty_user_agent_passes_through (compile : Compiler) (options : List Options)
    (h : Handler) (ctx : Ctx) (w : World)
    (hNew : New options = .handler h)
    (hUa : ctx.userAgent = "") :
    h.Serve compile ctx w =
      .returned { err := (w.next ctx.response).1,
                  response := (w.next ctx.response).2,
                  fetched := [] } ∧
    h.eligible compile ctx = false := by
  have _ := hNew
  constructor
  · unfold Handler.Serve passNext
    simp [hUa]
  · unfold Handler.eligible
    simp [hUa]

/-- C4 at a configuration whose user agent pattern is not a regular expression and at one
whose pattern matches the empty string. -/
theorem C4_empty_user_agent_passes_through_witness :
    (New.captured malformedConfig).Serve goRegexp (exampleCtx "" "/a" "/a?b=1" "")
        (exampleWorld (.error "refused")) =
      .returned { err := some "next",
                  response := { status := 204, contentType := "text/plain", body := [] },
                  fetched := [] } ∧
    (New.captured { exampleConfig with UserAgentPattern := ".*" }).Serve goRegexp
        (exampleCtx "" "/a" "/a?b=1" "") (exampleWorld (.error "refused")) =
      .returned { err := some "next",
                  response := { status := 204, contentType := "text/plain", body := [] },
                  fetched := [] } :=
  ⟨(C4_empty_user_agent_passes_through goRegexp [malformedConfig]
      (New.captured malformedConfig) (exampleCtx "" "/a" "/a?b=1" "")
      (exampleWorld (.error "refused")) (by rfl) rfl).1,
   (C4_empty_user_agent_passes_through goRegexp
      [{ exampleConfig with UserAgentPattern := ".*" }]
      (New.captured { exampleConfig with UserAgentPattern := ".*" })
      (exampleCtx "" "/a" "/a?b=1" "")
      (exampleWorld (.error "refused")) (by rfl) rfl).1⟩

/-- C5 as stated fails. With the extra extension `a+` a request of user agent `Slackbot`
for `/notes.a+` is not passed on: the render URL is fetched. With a user agent pattern
that does not compile a request of user agent `Slackbot` for `/logo.png` is not passed
on either: the handler panics. -/
theorem C5_counterexample :
    "a+" ∈ plusExtensionConfig.ExtraExcludeUrls ∧
    plusExtensionConfig.ExcludeUrlPattern = "" ∧
    EndsWithFold "/notes.a+" ("." ++ "a+") ∧
    New [plusExtensionConfig] = .handler (New.captured plusExtensionConfig) ∧
    (New.captured plusExtensionConfig).Serve goRegexp
        (exampleCtx "Slackbot" "/notes.a+" "/notes.a+" "")
        (exampleWorld (.ok (exampleUpstream 200 [] "<html></html>"))) =
      .returned { err := none,
                  response := { status := 200, contentType := "text/html",
                                body := goBytes "<html></html>" },
                  fetched := ["https://render.example/render/" ++
                    "https%3A%2F%2Finternal.local%2Fnotes.a%2B"] } ∧
    "png" ∈ StaticFileExtensions ∧
    malformedConfig.ExcludeUrlPattern = "" ∧
    EndsWithFold "/logo.png" ("." ++ "png") ∧
    New [malformedConfig] = .handler (New.captured malformedConfig) ∧
    (New.captured malformedConfig).Serve goRegexp
        (exampleCtx "Slackbot" "/logo.png" "/logo.png" "")
        (exampleWorld (.error "refused")) =
      .panic "regexp: Compile((?i)(): error parsing regexp" := by
  refine ⟨by decide, by decide, ⟨"/notes".data, rfl⟩, by rfl, by decide, by decide, by decide,
    ⟨"/logo".data, rfl⟩, by rfl, by decide⟩

/-- C5, amended: for every configuration without an `ExcludeUrlPattern` override whose
extra extensions hold no pattern metacharacter, every extension `E` of
`StaticFileExtensions` or `ExtraExcludeUrls`, every request whose path ends with `.`
and `E` (ignoring ASCII letter case), and every user agent, provided the user agent is
empty or the user agent pattern compiles: the request is not eligible, the handler
returns what the next handler returns and fetches nothing. -/
theorem C5_static_assets_pass_through (config : Options) (rest : List Options)
    (h : Handler) (ctx : Ctx) (w : World) (E : String)
    (hNew : New (config :: rest) = .handler h)
    (hNoOverride : config.ExcludeUrlPattern = "")
    (hLiteral : ∀ x ∈ config.ExtraExcludeUrls, isLiteralText x = true)
    (hE : E ∈ StaticFileExtensions ++ config.ExtraExcludeUrls)
    (hPath : EndsWithFold ctx.path ("." ++ E))
    (hUa : ctx.userAgent = "" ∨ h.userAgentPatternCompiles goRegexp = true) :
    h.Serve goRegexp ctx w =
      .returned { err := (w.next ctx.response).1,
                  response := (w.next ctx.response).2,
                  fetched := [] } ∧
    h.eligible goRegexp ctx = false := by
  obtain ⟨_, _, _, hEx, _, _, _⟩ := New_handler_fields hNew
  rw [if_pos hNoOverride] at hEx
  have hCompile := goRegexp_default_exclude config.ExtraExcludeUrls hLiteral
  refine Serve_of_excluded goRegexp h ctx w _ hUa ?_
    (MatchString_extension _ E ctx.path hE hPath)
  rw [hEx]
  simp only [goRegexp, hCompile, Option.map_some']

/-- C5 at the paths `/logo.png` and `/Site.CSS` with the user agent `Slackbot`. -/
theorem C5_static_assets_pass_through_witness :
    (New.captured exampleConfig).Serve goRegexp
        (exampleCtx "Slackbot" "/logo.png" "/logo.png" "")
        (exampleWorld (.ok (exampleUpstream 200 [] "<html></html>"))) =
      .returned { err := some "next",
                  response := { status := 204, contentType := "text/plain", body := [] },
                  fetched := [] } ∧
    (New.captured exampleConfig).Serve goRegexp
        (exampleCtx "Slackbot" "/Site.CSS" "/Site.CSS?v=2" "")
        (exampleWorld (.ok (exampleUpstream 200 [] "<html></html>"))) =
      .returned { err := some "next",
                  response := { status := 204, contentType := "text/plain", body := [] },
                  fetched := [] } :=
  ⟨(C5_static_assets_pass_through exampleConfig [] (New.captured exampleConfig)
      (exampleCtx "Slackbot" "/logo.png" "/logo.png" "")
      (exampleWorld (.ok (exampleUpstream 200 [] "<html></html>"))) "png"
      (by rfl) rfl (by decide) (by decide) ⟨"/logo".data, rfl⟩ (Or.inr (by decide))).1,
   (C5_static_assets_pass_through exampleConfig [] (New.captured exampleConfig)
      (exampleCtx "Slackbot" "/Site.CSS" "/Site.CSS?v=2" "")
      (exampleWorld (.ok (exampleUpstream 200 [] "<html></html>"))) "css"
      (by rfl) rfl (by decide) (by decide) ⟨"/site".data, rfl⟩ (Or.inr (by decide))).1⟩

/-- C6 as stated fails. With the extra signature `search+bot` the user agent
`search+bot/1.0` contains the signature and is passed on. With the empty text as an extra
signature the empty user agent contains the signature and is passed on. With an exclusion
pattern that does not compile, which matches no path, the handler panics. -/
theorem C6_counterexample :
    "search+bot" ∈ BotUserAgents ++ plusSignatureConfig.ExtraBotUserAgents ∧
    plusSignatureConfig.UserAgentPattern = "" ∧
    ContainsFold "search+bot/1.0" "search+bot" ∧
    (New.captured plusSignatureConfig).pathNotExcluded goRegexp
        (exampleCtx "search+bot/1.0" "/a" "/a?b=1" "") = true ∧
    New [plusSignatureConfig] = .handler (New.captured plusSignatureConfig) ∧
    (New.captured plusSignatureConfig).Serve goRegexp
        (exampleCtx "search+bot/1.0" "/a" "/a?b=1" "")
        (exampleWorld (.ok (exampleUpstream 200 [] "<html></html>"))) =
      .returned { err := some "next",
                  response := { status := 204, contentType := "text/plain", body := [] },
                  fetched := [] } ∧
    "" ∈ BotUserAgents ++ emptySignatureConfig.ExtraBotUserAgents ∧
    ContainsFold "" "" ∧
    (New.captured emptySignatureConfig).Serve goRegexp (exampleCtx "" "/a" "/a?b=1" "")
        (exampleWorld (.ok (exampleUpstream 200 [] "<html></html>"))) =
      .returned { err := some "next",
                  response := { status := 204, contentType := "text/plain", body := [] },
                  fetched := [] } ∧
    "Slackbot" ∈ BotUserAgents ++ malformedExcludeConfig.ExtraBotUserAgents ∧
    regexp.Compile ("(?i)" ++ (New.captured malformedExcludeConfig).excludeUrlPattern) =
      none ∧
    (New.captured malformedExcludeConfig).Serve goRegexp
        (exampleCtx "Slackbot" "/a" "/a?b=1" "")
        (exampleWorld (.ok (exampleUpstream 200 [] "<html></html>"))) =
      .panic "regexp: Compile((?i)(): error parsing regexp" := by
  refine ⟨by decide, by decide, ⟨[], "/1.0".data, rfl⟩, by decide, by rfl, by decide,
    by decide, ⟨[], [], rfl⟩, by decide, by decide, by decide, by decide⟩

/-- C6, amended: for every configuration without a `UserAgentPattern` override whose
extra signatures hold no pattern metacharacter, every signature `S` of `BotUserAgents`
or `ExtraBotUserAgents`, every non-empty user agent that contains `S` (ignoring ASCII
letter case), and every path for which the effective exclusion pattern compiles and
does not match: the request is eligible, the next handler is not run, and the handler
fetches the render URL. -/
theorem C6_crawler_signatures_eligible (config : Options) (rest : List Options)
    (h : Handler) (ctx : Ctx) (w : World) (S : String)
    (hNew : New (config :: rest) = .handler h)
    (hNoOverride : config.UserAgentPattern = "")
    (hLiteral : ∀ x ∈ config.ExtraBotUserAgents, isLiteralText x = true)
    (hS : S ∈ BotUserAgents ++ config.ExtraBotUserAgents)
    (hUa : ctx.userAgent ≠ "")
    (hContains : ContainsFold ctx.userAgent S)
    (hPath : h.pathNotExcluded goRegexp ctx = true) :
    h.eligible goRegexp ctx = true ∧
    h.Serve goRegexp ctx w = h.proxy ctx w ∧
    ∃ o, h.Serve goRegexp ctx w = .returned o ∧ o.fetched = [h.renderUrl ctx] := by
  obtain ⟨_, _, hPattern, _, _, _, _⟩ := New_handler_fields hNew
  rw [if_pos hNoOverride] at hPattern
  have hCompile := goRegexp_default_userAgent config.ExtraBotUserAgents hLiteral
  have hMatch := MatchString_signature _ S ctx.userAgent hS hContains
  have hEl : h.eligible goRegexp ctx = true := by
    unfold Handler.pathNotExcluded at hPath
    unfold Handler.eligible
    rw [hPattern]
    simp only [goRegexp, hCompile, Option.map_some', hMatch, Bool.and_true] at hPath ⊢
    simp [hUa, hPath]
  have hServe := Serve_of_eligible goRegexp h ctx w hEl
  obtain ⟨o, ho, hf⟩ := proxy_fetched h ctx w
  exact ⟨hEl, hServe, o, hServe.trans ho, hf⟩

/-- C6 at the signature `Slackbot`, the user agent `Mozilla/5.0 slackbot-linkexpanding`
and the path `/a`. -/
theorem C6_crawler_signatures_eligible_witness :
    ∃ o, (New.captured exampleConfig).Serve goRegexp
        (exampleCtx "Mozilla/5.0 slackbot-linkexpanding" "/a" "/a?b=1" "")
        (exampleWorld (.ok (exampleUpstream 200 [] "<html></html>"))) = .returned o ∧
      o.fetched = [(New.captured exampleConfig).renderUrl
        (exampleCtx "Mozilla/5.0 slackbot-linkexpanding" "/a" "/a?b=1" "")] :=
  (C6_crawler_signatures_eligible exampleConfig [] (New.captured exampleConfig)
    (exampleCtx "Mozilla/5.0 slackbot-linkexpanding" "/a" "/a?b=1" "")
    (exampleWorld (.ok (exampleUpstream 200 [] "<html></html>"))) "Slackbot"
    (by rfl) rfl (by decide) (by decide) (by decide)
    ⟨"mozilla/5.0 ".data, "-linkexpanding".data, rfl⟩ (by decide)).2.2

/-- C7 as stated fails: `(` is not a regular expression, yet `New` returns a handler for a
configuration whose `UserAgentPattern` is `(`, and that handler panics in
`regexp.MustCompile` when a request of user agent `Slackbot` arrives. -/
theorem C7_counterexample :
    regexp.Compile "(" = none ∧
    malformedConfig.ProxyUrl ≠ "" ∧
    New [malformedConfig] = .handler (New.captured malformedConfig) ∧
    regexp.Compile ("(?i)" ++ (New.captured malformedConfig).userAgentPattern) = none ∧
    (New.captured malformedConfig).Serve goRegexp (exampleCtx "Slackbot" "/a" "/a?b=1" "")
        (exampleWorld (.error "refused")) =
      .panic "regexp: Compile((?i)(): error parsing regexp" := by
  refine ⟨by decide, by decide, by rfl, by decide, by decide⟩

/-- C7, amended: `New` compiles no pattern. For every `Options` value with a non-empty
`ProxyUrl` it returns a handler that holds the override patterns as strings, valid or
not. The handler compiles them on each request: a request with an empty user agent is
passed on without compiling anything, a user agent pattern that does not compile makes
the handler panic on every request with a non-empty user agent, and an exclusion pattern
that does not compile makes it panic on every request whose user agent matches. -/
theorem C7_patterns_compile_per_request (compile : Compiler) (config : Options)
    (rest : List Options) (hp : config.ProxyUrl ≠ "") :
    ∃ h, New (config :: rest) = .handler h ∧
      (config.UserAgentPattern ≠ "" → h.userAgentPattern = config.UserAgentPattern) ∧
      (config.ExcludeUrlPattern ≠ "" → h.excludeUrlPattern = config.ExcludeUrlPattern) ∧
      (∀ ctx w, ctx.userAgent = "" →
        h.Serve compile ctx w =
          .returned { err := (w.next ctx.response).1,
                      response := (w.next ctx.response).2,
                      fetched := [] }) ∧
      (∀ ctx w, ctx.userAgent ≠ "" →
        compile ("(?i)" ++ h.userAgentPattern) = none →
        h.Serve compile ctx w = .panic (mustCompilePanic ("(?i)" ++ h.userAgentPattern))) ∧
      (∀ ctx w ua, ctx.userAgent ≠ "" →
        compile ("(?i)" ++ h.userAgentPattern) = some ua → ua ctx.userAgent = true →
        compile ("(?i)" ++ h.excludeUrlPattern) = none →
        h.Serve compile ctx w =
          .panic (mustCompilePanic ("(?i)" ++ h.excludeUrlPattern))) := by
  obtain ⟨h, hNew⟩ := New_of_proxyUrl_ne config rest hp
  obtain ⟨_, _, hUa, hEx, _, _, _⟩ := New_handler_fields hNew
  refine ⟨h, hNew, ?_, ?_, ?_, ?_, ?_⟩
  · intro hne
    rw [hUa, if_neg hne]
  · intro hne
    rw [hEx, if_neg hne]
  · intro ctx w hEmpty
    unfold Handler.Serve passNext
    simp [hEmpty]
  · intro ctx w hne hNone
    unfold Handler.Serve
    simp [hne, hNone]
  · intro ctx w ua hne hSome hMatch hNone
    unfold Handler.Serve
    simp [hne, hSome, hMatch, hNone]

/-- C7, amended, at the configuration whose user agent pattern is `(`. -/
theorem C7_patterns_compile_per_request_witness :
    malformedConfig.ProxyUrl ≠ "" ∧
    ∃ h, New [malformedConfig] = .handler h ∧
      (malformedConfig.UserAgentPattern ≠ "" →
        h.userAgentPattern = malformedConfig.UserAgentPattern) ∧
      (malformedConfig.ExcludeUrlPattern ≠ "" →
        h.excludeUrlPattern = malformedConfig.ExcludeUrlPattern) ∧
      (∀ ctx w, ctx.userAgent = "" →
        h.Serve goRegexp ctx w =
          .returned { err := (w.next ctx.response).1,
                      response := (w.next ctx.response).2,
                      fetched := [] }) ∧
      (∀ ctx w, ctx.userAgent ≠ "" →
        goRegexp ("(?i)" ++ h.userAgentPattern) = none →
        h.Serve goRegexp ctx w = .panic (mustCompilePanic ("(?i)" ++ h.userAgentPattern))) ∧
      (∀ ctx w ua, ctx.userAgent ≠ "" →
        goRegexp ("(?i)" ++ h.userAgentPattern) = some ua → ua ctx.userAgent = true →
        goRegexp ("(?i)" ++ h.excludeUrlPattern) = none →
        h.Serve goRegexp ctx w =
          .panic (mustCompilePanic ("(?i)" ++ h.excludeUrlPattern))) :=
  ⟨by decide, C7_patterns_compile_per_request goRegexp malformedConfig [] (by decide)⟩

/-- C8 (a missing base URL aborts setup): when no `Options` value is passed `New` panics
on `options[0]`, and when the first `Options` value has an empty `ProxyUrl` `New` ends
in `log.Fatal`, whatever the other fields hold; in both cases no handler is returned. -/
theorem C8_missing_base_url_aborts (options : List Options)
    (hAbsent : options = [] ∨
      ∃ config rest, options = config :: rest ∧ config.ProxyUrl = "") :
    (∀ h, New options ≠ .handler h) ∧
    (options = [] →
      New options = .panic "runtime error: index out of range [0] with length 0") ∧
    (options ≠ [] → New options = .fatal "Must set options.proxyUrl.") := by
  rcases hAbsent with hNil | ⟨config, rest, hCons, hEmpty⟩
  · subst hNil
    exact ⟨fun h => by simp [New], fun _ => by simp [New], fun hne => absurd rfl hne⟩
  · subst hCons
    refine ⟨fun h => by simp [New, hEmpty], fun hNil => by simp at hNil,
      fun _ => by simp [New, hEmpty]⟩

/-- C8 at no `Options` value at all and at an `Options` value that sets every field but
`ProxyUrl`. -/
theorem C8_missing_base_url_aborts_witness :
    New [] = .panic "runtime error: index out of range [0] with length 0" ∧
    New [{ UserAgentPattern := "bot", ExtraBotUserAgents := ["curl"],
           ExcludeUrlPattern := "x", ExtraExcludeUrls := ["map"], InjectShadyDom := true,
           Timeout := 5, AllowedForwardedHosts := ["example.com"],
           ForwardedHostHeader := "X-Host" }] = .fatal "Must set options.proxyUrl." :=
  ⟨(C8_missing_base_url_aborts [] (Or.inl rfl)).2.1 rfl,
   (C8_missing_base_url_aborts
      [{ UserAgentPattern := "bot", ExtraBotUserAgents := ["curl"],
         ExcludeUrlPattern := "x", ExtraExcludeUrls := ["map"], InjectShadyDom := true,
         Timeout := 5, AllowedForwardedHosts := ["example.com"],
         ForwardedHostHeader := "X-Host" }]
      (Or.inr ⟨_, _, rfl, rfl⟩)).2.2 (by simp)⟩

/-- C9 (fetch and body-read errors are propagated unchanged): for an eligible request, if
`client.Get` fails with `e`, or it succeeds and reading the body fails with `e` after any
number of bytes, the handler returns exactly `e`, the response is as it was before the
handler ran, and exactly one URL has been fetched. -/
theorem C9_errors_propagated (compile : Compiler) (h : Handler) (ctx : Ctx) (w : World)
    (e : GoError)
    (hEl : h.eligible compile ctx = true)
    (hFail : w.httpGet h.client (h.renderUrl ctx) = .error e ∨
      ∃ up read, w.httpGet h.client (h.renderUrl ctx) = .ok up ∧
        up.readAll = (read, some e)) :
    h.Serve compile ctx w =
      .returned { err := some e, response := ctx.response, fetched := [h.renderUrl ctx] } := by
  rw [Serve_of_eligible compile h ctx w hEl]
  rcases hFail with hGet | ⟨up, read, hGet, hRead⟩
  · exact proxy_of_get_error h ctx w e hGet
  · exact proxy_of_read_error h ctx w up read e hGet hRead

/-- C9 at a fetch that times out and at a body that breaks off after `<html>`. -/
theorem C9_errors_propagated_witness :
    (New.captured exampleConfig).Serve goRegexp (exampleCtx "Slackbot" "/a" "/a?b=1" "")
        (exampleWorld (.error "context deadline exceeded")) =
      .returned { err := some "context deadline exceeded",
                  response := { status := 404, contentType := "text/plain", body := [] },
                  fetched := [(New.captured exampleConfig).renderUrl
                    (exampleCtx "Slackbot" "/a" "/a?b=1" "")] } ∧
    (New.captured exampleConfig).Serve goRegexp (exampleCtx "Slackbot" "/a" "/a?b=1" "")
        (exampleWorld (.ok (brokenUpstream "<html>" "unexpected EOF"))) =
      .returned { err := some "unexpected EOF",
                  response := { status := 404, contentType := "text/plain", body := [] },
                  fetched := [(New.captured exampleConfig).renderUrl
                    (exampleCtx "Slackbot" "/a" "/a?b=1" "")] } :=
  ⟨C9_errors_propagated goRegexp (New.captured exampleConfig)
      (exampleCtx "Slackbot" "/a" "/a?b=1" "")
      (exampleWorld (.error "context deadline exceeded")) "context deadline exceeded"
      (by decide) (Or.inl rfl),
   C9_errors_propagated goRegexp (New.captured exampleConfig)
      (exampleCtx "Slackbot" "/a" "/a?b=1" "")
      (exampleWorld (.ok (brokenUpstream "<html>" "unexpected EOF"))) "unexpected EOF"
      (by decide) (Or.inr ⟨_, _, rfl, rfl⟩)⟩

/-- C10 as stated fails: the canonical URL `https://example.com/a b` has a space, and
its encoded form carries a `+`, which is neither unreserved nor part of a `%` triplet. -/
theorem C10_counterexample :
    '+' ∈ (url.QueryEscape "https://example.com/a b").data ∧
    escapedWith [] (url.QueryEscape "https://example.com/a b").data = false ∧
    url.QueryEscape "https://example.com/a b" = "https%3A%2F%2Fexample.com%2Fa+b" := by
  refine ⟨by decide, by decide, by decide⟩

/-- C10, amended: for every canonical URL `u` the encoded form is made of ASCII letters,
digits, `-`, `_`, `.`, `~`, `+`, and triplets of `%` and two hexadecimal digits; every
character of it is ASCII and none is `/`, `?`, `#`, `&`, `=`, `:` or a space; a `+` is
there exactly when `u` has a space byte. The same holds for the escape of every sequence
of bytes, well-formed UTF-8 or not. -/
theorem C10_encoded_url_shape (u : String) :
    escapedWith ['+'] (url.QueryEscape u).data = true ∧
    (∀ c ∈ (url.QueryEscape u).data,
      c.toNat < 128 ∧ c ∉ ['/', '?', '#', '&', '=', ':', ' ']) ∧
    ('+' ∈ (url.QueryEscape u).data ↔ 32 ∈ goBytes u) ∧
    (∀ bytes : List Nat,
      escapedWith ['+'] (escapeBytes bytes) = true ∧
      (∀ c ∈ escapeBytes bytes, c.toNat < 128 ∧ c ∉ ['/', '?', '#', '&', '=', ':', ' ']) ∧
      ('+' ∈ escapeBytes bytes ↔ 32 ∈ bytes)) := by
  have hBytes : ∀ bytes : List Nat,
      escapedWith ['+'] (escapeBytes bytes) = true ∧
      (∀ c ∈ escapeBytes bytes, c.toNat < 128 ∧ c ∉ ['/', '?', '#', '&', '=', ':', ' ']) ∧
      ('+' ∈ escapeBytes bytes ↔ 32 ∈ bytes) := by
    intro bytes
    refine ⟨escapedWith_escapeBytes _, ?_, ?_⟩
    · intro c hc
      simp only [escapeBytes, List.mem_flatMap] at hc
      obtain ⟨b, _, hcb⟩ := hc
      exact safe_char_bounds c (escapeByte_chars b c hcb)
    · simp only [escapeBytes, List.mem_flatMap]
      constructor
      · rintro ⟨b, hb, hplus⟩
        rwa [(plus_mem_escapeByte b).1 hplus] at hb
      · intro h32
        exact ⟨32, h32, (plus_mem_escapeByte 32).2 rfl⟩
  exact ⟨(hBytes (goBytes u)).1, (hBytes (goBytes u)).2.1, (hBytes (goBytes u)).2.2, hBytes⟩

end Rendertron
